import Mathlib

/-!
Verification of the cto-orchestrator work-scheduling and coordination engine.

The definitions below are shallow embeddings of the Python sources under
`scripts/`: `orchestrate.py` (ticket scheduling, sequential team execution),
`team.py` (member/team status updates, file reservations), `delegate.py`
(agent report parsing, ticket updates after delegation) and `roro_events.py`
(circuit breaker).  Python strings are Lean `String`/`List Char`, Python
float timestamps are `Int` (only subtraction and order on them are used),
Python `None`-able fields are `Option`, dictionaries with insertion order
are association lists.
-/

namespace CtoOrch

/-! ### Python string primitives -/

/-- Python whitespace characters recognised by `str.strip()` and the regex
class `\s` (ASCII range, which covers every string the programs build). -/
def isPyWs (c : Char) : Bool :=
  c == ' ' || c == '\t' || c == '\n' || c == '\r' || c == '\x0b' || c == '\x0c'

/-- Python `str.strip()` on a character list: drop whitespace on both ends. -/
def pyStrip (l : List Char) : List Char :=
  ((l.dropWhile isPyWs).reverse.dropWhile isPyWs).reverse

/-- Python `str.lstrip(set)`: drop leading characters belonging to `set`. -/
def pyLstrip (set : List Char) (l : List Char) : List Char :=
  l.dropWhile (fun c => set.contains c)

/-- Python `str.strip(set)`: drop characters of `set` on both ends. -/
def pyStripSet (set : List Char) (l : List Char) : List Char :=
  ((l.dropWhile (fun c => set.contains c)).reverse.dropWhile (fun c => set.contains c)).reverse

/-- Python slicing `s[-n:]`: the trailing `n` characters. -/
def takeLast (n : Nat) (l : List Char) : List Char :=
  l.drop (l.length - n)

/-- Python slicing `s[:n]` on a `String`. -/
def strTake (n : Nat) (s : String) : String :=
  String.mk (s.toList.take n)

/-! ### Python's stable `list.sort`

`pySort lt` models Python's `list.sort(key=...)`: ascending by key, and
stable (elements whose keys compare equal keep their original order).  It is
written as an insertion sort; `insOrd` walks past every element whose key is
strictly smaller and places the new element in front of the first element
whose key is not smaller, which is exactly the stable placement because in
`pySort` the elements are inserted from the back of the list forwards. -/

/-- Insert `x` before the first element `y` with `lt y x = false`. -/
def insOrd (lt : α → α → Bool) (x : α) : List α → List α
  | [] => [x]
  | y :: ys => if lt y x then y :: insOrd lt x ys else x :: y :: ys

/-- Stable ascending sort by the strict comparison `lt`, modelling Python's
stable `list.sort`. -/
def pySort (lt : α → α → Bool) : List α → List α
  | [] => []
  | x :: xs => insOrd lt x (pySort lt xs)

/-! ### Tickets and the scheduler (`orchestrate.py`) -/

/-- A work ticket, with the fields the scheduler and the delegation pipeline
read and write (`ticket.py` / `orchestrate.py` / `delegate.py`). -/
structure Ticket where
  id : String
  type : String
  status : String
  priority : String
  dependencies : List String
  agent_output : String
  files_touched : List String
  updated_at : String
deriving DecidableEq

/-- Membership of a dependency identifier in `done_ids`, the set of
identifiers of tickets whose status is `done`, `in_review` or `testing`
(`orchestrate.py, get_actionable_tickets`). -/
def depMet (tickets : List Ticket) (d : String) : Bool :=
  tickets.any (fun u =>
    u.id == d && (u.status == "done" || u.status == "in_review" || u.status == "testing"))

/-- The candidate filter of `get_actionable_tickets`: status `todo` or
`backlog`, not an epic, and every dependency in `done_ids`. -/
def isActionable (tickets : List Ticket) (t : Ticket) : Bool :=
  (t.status == "todo" || t.status == "backlog") &&
  !(t.type == "epic") &&
  t.dependencies.all (depMet tickets)

/-- `PRIORITY_ORDER.get(priority, 99)` from `orchestrate.py`. -/
def priorityRank (p : String) : Nat :=
  if p == "critical" then 0
  else if p == "high" then 1
  else if p == "medium" then 2
  else if p == "low" then 3
  else 99

/-- `get_actionable_tickets` from `orchestrate.py`: filter to actionable
tickets, then stable-sort by the fixed priority order. -/
def get_actionable_tickets (tickets : List Ticket) : List Ticket :=
  pySort (fun a b => priorityRank a.priority < priorityRank b.priority)
    (tickets.filter (isActionable tickets))

/-- Witness ticket: no dependencies, priority high (end-to-end scenario 1). -/
def W1 : Ticket := ⟨"T1", "feature", "todo", "high", [], "", [], ""⟩

/-- Witness ticket: depends on T1, priority critical (end-to-end scenario 1). -/
def W2 : Ticket := ⟨"T2", "feature", "todo", "critical", ["T1"], "", [], ""⟩

/-! ### Circuit breaker (`roro_events.py`) -/

/-- The process-wide circuit breaker state: configuration (threshold and
cooldown), the state string (`closed` / `open` / `half_open`), the
consecutive-failure counter and the time of the last failure.  Timestamps
are integers standing for the Python floats produced by `time.time()`:
the breaker only ever subtracts and compares them. -/
structure CircuitBreaker where
  failure_threshold : Nat
  cooldown_seconds : Int
  state : String
  failure_count : Nat
  last_failure_time : Option Int
deriving DecidableEq

/-- `CircuitBreaker.__init__` with explicit arguments; the source defaults
are `failure_threshold = 3` and `cooldown_seconds = 30.0`. -/
def CircuitBreaker.init (failure_threshold : Nat) (cooldown_seconds : Int) :
    CircuitBreaker :=
  ⟨failure_threshold, cooldown_seconds, "closed", 0, none⟩

/-- `CircuitBreaker.can_execute`.  Returns the decision together with the
breaker state after the call, because the open-state check mutates the state
to `half_open`.  The guard `!(t == 0)` embeds Python's truthiness test
`if self.last_failure_time and ...`, under which `None` and `0.0` are both
falsy. -/
def CircuitBreaker.can_execute (cb : CircuitBreaker) (now : Int) :
    Bool × CircuitBreaker :=
  if cb.state == "closed" then (true, cb)
  else if cb.state == "open" then
    match cb.last_failure_time with
    | some t =>
      if (!(t == 0)) && (cb.cooldown_seconds ≤ now - t) then
        (true, { cb with state := "half_open" })
      else (false, cb)
    | none => (false, cb)
  else (true, cb)

/-- `CircuitBreaker.record_success`: reset the counter, return to closed. -/
def CircuitBreaker.record_success (cb : CircuitBreaker) : CircuitBreaker :=
  { cb with failure_count := 0, state := "closed" }

/-- `CircuitBreaker.record_failure` at time `now`: increment the counter,
record the failure time, and open the breaker once the counter reaches the
threshold. -/
def CircuitBreaker.record_failure (cb : CircuitBreaker) (now : Int) :
    CircuitBreaker :=
  let fc := cb.failure_count + 1
  { cb with
      failure_count := fc
      last_failure_time := some now
      state := if cb.failure_threshold ≤ fc then "open" else cb.state }

/-- `CircuitBreaker.reset`. -/
def CircuitBreaker.reset (cb : CircuitBreaker) : CircuitBreaker :=
  { cb with state := "closed", failure_count := 0, last_failure_time := none }

/-! ### Teams (`team.py`) -/

/-- A team member record: role, status, start/completion timestamps and the
output summary (`create_team` initialises the optional fields to `None`). -/
structure Member where
  role : String
  status : String
  started_at : Option String
  completed_at : Option String
  output_summary : Option String
deriving DecidableEq

/-- A team session record, with the fields the coordination engine reads
and writes: overall status, the ordered member list, the `files_reserved`
map (role → reserved paths, in dictionary insertion order) and the team
timestamps. -/
structure Team where
  id : String
  status : String
  members : List Member
  files_reserved : List (String × List String)
  started_at : Option String
  completed_at : Option String
deriving DecidableEq

/-- Python truthiness of the `output_summary` argument
(`if output_summary:`): `None` and the empty string are falsy. -/
def pyTruthyStr : Option String → Bool
  | none => false
  | some s => !(s == "")

/-- The mutation `update_member_status` applies to the matching member:
set the status; set `started_at` when entering `working` with a null
`started_at`; set `completed_at` when entering `completed`/`blocked` with a
null `completed_at`; overwrite `output_summary` only when truthy. -/
def applyMemberUpdate (m : Member) (status : String) (output_summary : Option String)
    (now : String) : Member :=
  let m1 := { m with status := status }
  let m2 := if status == "working" && (m.started_at == none) then
      { m1 with started_at := some now } else m1
  let m3 := if (status == "completed" || status == "blocked") && (m.completed_at == none) then
      { m2 with completed_at := some now } else m2
  if pyTruthyStr output_summary then { m3 with output_summary := output_summary } else m3

/-- The member loop of `update_member_status`: Python's `for ... break`
mutates only the first member whose role matches. -/
def updateMembers (role status : String) (output_summary : Option String) (now : String) :
    List Member → List Member
  | [] => []
  | m :: ms =>
    if m.role == role then applyMemberUpdate m status output_summary now :: ms
    else m :: updateMembers role status output_summary now ms

/-- `update_member_status` from `team.py`: update the matching member, then
recompute the team status from the member statuses (completed / blocked /
active), leaving it unchanged when no branch applies. -/
def update_member_status (team : Team) (role status : String)
    (output_summary : Option String) (now : String) : Team :=
  let members := updateMembers role status output_summary now team.members
  let statuses := members.map Member.status
  let t1 := { team with members := members }
  if statuses.all (fun s => s == "completed") then
    { t1 with status := "completed", completed_at := some now }
  else if statuses.any (fun s => s == "blocked") then
    { t1 with status := "blocked" }
  else if statuses.any (fun s => s == "working") then
    { t1 with
        status := "active"
        started_at := if t1.started_at == none then some now else t1.started_at }
  else t1

/-- The conflict scan of `reserve_files`: for each requested path, every
entry of another role containing the path contributes a
(path, other role) pair, in loop order. -/
def findConflicts (reserved : List (String × List String)) (role : String) :
    List String → List (String × String)
  | [] => []
  | path :: rest =>
    (reserved.filter (fun e => !(e.1 == role) && e.2.contains path)).map
        (fun e => (path, e.1)) ++
      findConflicts reserved role rest

/-- Keep-first deduplication with an accumulator of already-seen elements;
models `list(set(...))` in `reserve_files` with the set iterated in
first-occurrence order. -/
def dedupAux (seen : List String) : List String → List String
  | [] => []
  | x :: xs => if seen.contains x then dedupAux seen xs else x :: dedupAux (x :: seen) xs

/-- Keep-first deduplication of a path list. -/
def dedupKeepFirst (l : List String) : List String := dedupAux [] l

/-- Current reservation set of a role (`reserved[role]`, defaulting to an
empty list when the role has no entry). -/
def lookupPaths (reserved : List (String × List String)) (role : String) : List String :=
  match reserved.find? (fun e => e.1 == role) with
  | some e => e.2
  | none => []

/-- Replace the entry of `role` (keeping dictionary position), or append a
new entry at the end. -/
def setEntry (role : String) (paths : List String) :
    List (String × List String) → List (String × List String)
  | [] => [(role, paths)]
  | e :: rest => if e.1 == role then (role, paths) :: rest else e :: setEntry role paths rest

/-- Result of `reserve_files`: the boolean return value, the team state
after the call, and the conflict list the code reports on stderr. -/
structure ReserveResult where
  ok : Bool
  team : Team
  conflicts : List (String × String)
deriving DecidableEq

/-- `reserve_files` from `team.py`: scan for conflicts against every other
role; on any conflict fail without touching the team; otherwise extend and
deduplicate the requesting role's reservation set. -/
def reserve_files (team : Team) (role : String) (file_paths : List String) : ReserveResult :=
  let reserved := team.files_reserved
  let conflicts := findConflicts reserved role file_paths
  if conflicts.isEmpty then
    let newPaths := dedupKeepFirst (lookupPaths reserved role ++ file_paths)
    ⟨true, { team with files_reserved := setEntry role newPaths reserved }, conflicts⟩
  else ⟨false, team, conflicts⟩

/-- Witness member: completed, no timestamps. -/
def mA : Member := ⟨"a", "completed", none, none, none⟩

/-- Witness member: pending, no timestamps. -/
def mB : Member := ⟨"b", "pending", none, none, none⟩

/-- Witness member: pending, no timestamps (role a). -/
def m9a : Member := ⟨"a", "pending", none, none, none⟩

/-- Witness member: working with a recorded start time. -/
def m9b : Member := ⟨"b", "working", some "t0", none, none⟩

/-- Witness team for the write-once-timestamp claim. -/
def Team9 : Team := ⟨"t9", "active", [m9a, m9b], [], none, none⟩

/-- Witness team for the reservation claim: role R1 holds `/a.go`. -/
def TeamR : Team := ⟨"tr", "active", [], [("R1", ["/a.go"])], none, none⟩

/-- Counterexample team: previous status `completed`, one pending member. -/
def TeamC5 : Team := ⟨"t5", "completed", [mA, mB], [], none, none⟩

/-- Counterexample team (prior status `forming`). -/
def TeamC6a : Team := ⟨"t6", "forming", [mA, mB], [], none, none⟩

/-- Counterexample team with the same members but prior status `init`. -/
def TeamC6b : Team := ⟨"t6", "init", [mA, mB], [], none, none⟩

/-! ### Agent report parsing (`delegate.py`, `parse_agent_output`)

The parser uses a handful of fixed regular expressions; each is embedded by
a dedicated matcher with the exact leftmost-match, greedy-`\s*` and
lazy-capture semantics of Python `re` (checked against the `re` module on
the corner cases: `\s*\n` matches up to the last newline of a whitespace
run; `(.*?)(?:\n\*\*|\Z)` captures up to the first `\n**` or the end). -/

/-- The parsed agent report. -/
structure Parsed where
  status : String
  files_changed : List String
  description : String
  open_questions : String
deriving DecidableEq

/-- Match a literal pattern case-sensitively; return the rest on success. -/
def matchLit : List Char → List Char → Option (List Char)
  | [], s => some s
  | _ :: _, [] => none
  | p :: ps, c :: cs => if c == p then matchLit ps cs else none

/-- Match a literal pattern case-insensitively (`re.IGNORECASE`); the
pattern is supplied lowercase. -/
def matchLitCI : List Char → List Char → Option (List Char)
  | [], s => some s
  | _ :: _, [] => none
  | p :: ps, c :: cs => if c.toLower == p then matchLitCI ps cs else none

/-- Drop the maximal whitespace run (`\s*`, greedy, followed by a
non-whitespace pattern). -/
def skipWs : List Char → List Char
  | [] => []
  | c :: cs => if isPyWs c then skipWs cs else c :: cs

/-- Scan the maximal whitespace run at the head and return the suffix
after the last newline inside it: this is how `\s*\n` matches after
backtracking (no match when the run has no newline). -/
def afterWsNl (acc : Option (List Char)) : List Char → Option (List Char)
  | [] => acc
  | c :: cs =>
    if isPyWs c then afterWsNl (if c == '\n' then some cs else acc) cs
    else acc

/-- Attempt `###\s*TAG\s*\n(.*)` (DOTALL, IGNORECASE) at the start of `s`;
`tag` is supplied lowercase.  On success return the capture, which runs to
the end of the string. -/
def summaryAt (tag : List Char) (s : List Char) : Option (List Char) :=
  match s with
  | '#' :: '#' :: '#' :: rest =>
    match matchLitCI tag (skipWs rest) with
    | some r => afterWsNl none r
    | none => none
  | _ => none

/-- `re.search` for the summary-section pattern: try every start position
from the left; the first position with a match wins. -/
def findTagged (tag : List Char) : List Char → Option (List Char)
  | [] => none
  | c :: cs =>
    match summaryAt tag (c :: cs) with
    | some cap => some cap
    | none => findTagged tag cs

/-- Python regex `\w` (ASCII range). -/
def isWordChar (c : Char) : Bool :=
  ('a' ≤ c && c ≤ 'z') || ('A' ≤ c && c ≤ 'Z') || ('0' ≤ c && c ≤ '9') || c == '_'

/-- The maximal `\w*` run at the head. -/
def takeWord : List Char → List Char
  | [] => []
  | c :: cs => if isWordChar c then c :: takeWord cs else []

/-- Attempt `\*\*Status\*\*:\s*(\w+)` (case-sensitive) at the start of
`s`; `\w+` needs at least one word character. -/
def statusAt (s : List Char) : Option (List Char) :=
  match matchLit "**Status**:".toList s with
  | some r =>
    let w := takeWord (skipWs r)
    if w.isEmpty then none else some w
  | none => none

/-- Leftmost-position search with a positional matcher (`re.search`). -/
def searchFirst (f : List Char → Option (List Char)) : List Char → Option (List Char)
  | [] => f []
  | c :: cs =>
    match f (c :: cs) with
    | some r => some r
    | none => searchFirst f cs

/-- Whether `s` starts with the given character pattern. -/
def startsWithChars : List Char → List Char → Bool
  | [], _ => true
  | _ :: _, [] => false
  | p :: ps, c :: cs => c == p && startsWithChars ps cs

/-- Lazy capture `(.*?)(?:\n\*\*|\Z)` under DOTALL: everything up to the
first occurrence of `\n**`, or the whole rest when there is none. -/
def captureUntil (stop : List Char) : List Char → List Char
  | [] => []
  | c :: cs => if startsWithChars stop (c :: cs) then [] else c :: captureUntil stop cs

/-- Attempt a field pattern `TAG\s*(.*?)(?:\n\*\*|\Z)` (DOTALL) at the
start of `s`: the literal tag (case-insensitive when `ci`), the greedy
whitespace run, then the lazy capture. -/
def fieldAt (ci : Bool) (tag : List Char) (s : List Char) : Option (List Char) :=
  match (if ci then matchLitCI tag s else matchLit tag s) with
  | some r => some (captureUntil ['\n', '*', '*'] (skipWs r))
  | none => none

/-- `re.search` for a field pattern. -/
def findField (ci : Bool) (tag : List Char) (s : List Char) : Option (List Char) :=
  searchFirst (fieldAt ci tag) s

/-- One line of the files section:
`line.strip().lstrip("- ").strip(backtick).strip()`. -/
def cleanLine (line : List Char) : List Char :=
  pyStrip (pyStripSet ['\x60'] (pyLstrip ['-', ' '] (pyStrip line)))

/-- Keep a cleaned line when it is non-empty, does not start with `[` and
contains a slash or a dot. -/
def keepFileLine (l : List Char) : Bool :=
  !l.isEmpty && !(startsWithChars ['['] l) && (l.contains '/' || l.contains '.')

/-- Python `str.split("\n")`. -/
def splitNl : List Char → List (List Char)
  | [] => [[]]
  | c :: cs =>
    if c == '\n' then [] :: splitNl cs
    else
      match splitNl cs with
      | h :: t => (c :: h) :: t
      | [] => [[c]]

/-- The files-changed post-processing loop of `parse_agent_output`. -/
def extractFiles (raw : List Char) : List String :=
  (splitNl raw).filterMap (fun line =>
    let l := cleanLine line
    if keepFileLine l then some (String.mk l) else none)

/-- Parsing of the matched summary section: status token (lower-cased),
files list, description and open questions, each with the localized tag
tried first and the English tag (IGNORECASE) as fallback. -/
def parseSummaryBody (summary : List Char) : Parsed :=
  let status := match searchFirst statusAt summary with
    | some w => String.mk (w.map Char.toLower)
    | none => "completed"
  let filesCap := match findField false "**Bestanden gewijzigd**:".toList summary with
    | some cap => some cap
    | none => findField true "**files changed**:".toList summary
  let files := match filesCap with
    | some cap => extractFiles (pyStrip cap)
    | none => []
  let desc := match findField false "**Beschrijving**:".toList summary with
    | some cap => String.mk (pyStrip cap)
    | none =>
      match findField true "**description**:".toList summary with
      | some cap => String.mk (pyStrip cap)
      | none => ""
  let oq := match findField false "**Open vragen**:".toList summary with
    | some cap => String.mk (pyStrip cap)
    | none =>
      match findField true "**open questions**:".toList summary with
      | some cap => String.mk (pyStrip cap)
      | none => ""
  ⟨status, files, desc, oq⟩

/-- `parse_agent_output` from `delegate.py`: find the Dutch summary tag,
fall back to the English tag, and with no tagged section at all default to
status "completed", no files, and the stripped trailing 500 characters as
description. -/
def parse_agent_output (output : String) : Parsed :=
  let cs := output.toList
  match findTagged "samenvatting".toList cs with
  | some body => parseSummaryBody body
  | none =>
    match findTagged "summary".toList cs with
    | some body => parseSummaryBody body
    | none => ⟨"completed", [], String.mk (pyStrip (takeLast 500 cs)), ""⟩

/-! ### Delegation results and sequential team execution
(`orchestrate.py`, `delegate.py`) -/

/-- Outcome of the `run_delegate` subprocess call: captured text when the
process finishes (its exit code is never checked), or the timeout /
unexpected-exception failures caught in `delegate_team_member`. -/
inductive ExecOutcome where
  | success (output : String)
  | timeout
  | error (msg : String)
deriving DecidableEq

/-- `delegate_team_member` from `orchestrate.py`: the result status and
output excerpt for each outcome.  A finished subprocess always yields
status "completed" — the agent report parsed inside the subprocess never
reaches this function. -/
def delegate_team_member (timeoutSecs : Nat) (outcome : ExecOutcome) : String × String :=
  match outcome with
  | .success out => ("completed", String.mk (takeLast 500 out.toList))
  | .timeout => ("timeout", "Timed out after " ++ toString timeoutSecs ++ "s")
  | .error m => ("error", strTake 500 m)

/-- The sequential-mode ordering key comparison:
`(0 if role == lead else 1, role)` lexicographically. -/
def memberKeyLt (lead : String) (a b : Member) : Bool :=
  let ka : Nat := if a.role == lead then 0 else 1
  let kb : Nat := if b.role == lead then 0 else 1
  ka < kb || (ka == kb && a.role < b.role)

/-- A member is invoked only when not already terminal
(`if member["status"] in ("completed", "blocked"): continue`). -/
def eligMember (m : Member) : Bool :=
  !(m.status == "completed" || m.status == "blocked")

/-- The sequential loop of `run_team_sprint`: invoke each eligible member
in order, record (role, result status), and stop after the first result
whose status is not "completed". -/
def runSequential (timeoutSecs : Nat) (exec : String → ExecOutcome) :
    List Member → List (String × String × String)
  | [] => []
  | m :: ms =>
    if eligMember m then
      let r := delegate_team_member timeoutSecs (exec m.role)
      (m.role, r) ::
        (if r.1 == "completed" then runSequential timeoutSecs exec ms else [])
    else runSequential timeoutSecs exec ms

/-- Sequential mode of `run_team_sprint`: sort the members with the lead
first (Python's stable sort on `(0 if lead else 1, role)`), then run the
sequential loop.  `exec` abstracts the delegate subprocess per role. -/
def run_team_sprint_sequential (timeoutSecs : Nat) (exec : String → ExecOutcome)
    (members : List Member) (lead : String) : List (String × String × String) :=
  runSequential timeoutSecs exec (pySort (memberKeyLt lead) members)

/-- The ticket update at the end of `cmd_delegate` (`delegate.py`) after a
successful executor invocation, given the parsed report. -/
def cmd_delegate_update_ticket (ticket : Ticket) (parsed : Parsed) (now : String) : Ticket :=
  let st := if parsed.status == "completed" then "in_review"
    else if parsed.status == "blocked" then "blocked"
    else if parsed.status == "needs_review" then "in_review"
    else "in_review"
  { ticket with
      status := st
      agent_output := strTake 2000 parsed.description
      files_touched := parsed.files_changed
      updated_at := now }

/-- Witness member for sequential execution (role dev, pending). -/
def mdev : Member := ⟨"dev", "pending", none, none, none⟩

/-- Witness member for sequential execution (role qa, pending). -/
def mqa : Member := ⟨"qa", "pending", none, none, none⟩

/-- Counterexample executor: the dev subprocess finishes and relays output
whose report parses to status "blocked"; qa finishes normally. -/
def cexExec : String → ExecOutcome := fun r =>
  if r == "dev" then ExecOutcome.success "### Summary\n**Status**: blocked\n"
  else ExecOutcome.success "ok"

/-- Witness executor: dev times out, qa would succeed. -/
def timeoutExec : String → ExecOutcome := fun r =>
  if r == "dev" then ExecOutcome.timeout else ExecOutcome.success "ok"

theorem insOrd_append_left (lt : α → α → Bool) (x : α) (P S : List α)
    (h : ∀ y ∈ P, lt y x = true) :
    insOrd lt x (P ++ S) = P ++ insOrd lt x S := by
  induction P with
  | nil => rfl
  | cons p ps ih =>
    have hp : lt p x = true := h p (List.mem_cons_self _ _)
    have step : insOrd lt x ((p :: ps) ++ S) = p :: insOrd lt x (ps ++ S) := by
      simp [insOrd, hp]
    rw [step, ih (fun y hy => h y (List.mem_cons_of_mem _ hy)), List.cons_append]

theorem insOrd_front (lt : α → α → Bool) (x : α) (S : List α)
    (h : ∀ y ∈ S, lt y x = false) :
    insOrd lt x S = x :: S := by
  cases S with
  | nil => rfl
  | cons z zs =>
    simp [insOrd, h z (List.mem_cons_self _ _)]

theorem mem_insOrd (lt : α → α → Bool) (x a : α) (l : List α) :
    a ∈ insOrd lt x l ↔ a = x ∨ a ∈ l := by
  induction l with
  | nil => simp [insOrd]
  | cons y ys ih =>
    simp only [insOrd]
    split_ifs with hl
    · simp only [List.mem_cons, ih]
      tauto
    · simp only [List.mem_cons]

theorem mem_pySort (lt : α → α → Bool) (a : α) (l : List α) :
    a ∈ pySort lt l ↔ a ∈ l := by
  induction l with
  | nil => simp [pySort]
  | cons x xs ih =>
    simp only [pySort, mem_insOrd, List.mem_cons, ih]

/-- Stable sorting by a `Nat` key whose values all lie in `{0, 1, 2, 3}`
is concatenation of the key buckets in key order, each bucket in original
order.  This is the shape of sorting by the fixed priority order. -/
theorem pySort_buckets (key : α → Nat) (l : List α)
    (h : ∀ a ∈ l, key a = 0 ∨ key a = 1 ∨ key a = 2 ∨ key a = 3) :
    pySort (fun a b => key a < key b) l =
      l.filter (fun a => key a == 0) ++ l.filter (fun a => key a == 1) ++
      l.filter (fun a => key a == 2) ++ l.filter (fun a => key a == 3) := by
  induction l with
  | nil => rfl
  | cons x xs ih =>
    have hx := h x (List.mem_cons_self _ _)
    have hxs : ∀ a ∈ xs, key a = 0 ∨ key a = 1 ∨ key a = 2 ∨ key a = 3 :=
      fun a ha => h a (List.mem_cons_of_mem _ ha)
    have ihx := ih hxs
    have memF : ∀ (j : Nat) (a : α), a ∈ xs.filter (fun b => key b == j) → key a = j := by
      intro j a ha
      have := List.of_mem_filter ha
      simpa using this
    simp only [pySort, ihx, List.append_assoc]
    rcases hx with h0 | h1 | h2 | h3
    · have hfr : insOrd (fun a b => decide (key a < key b)) x
          (xs.filter (fun a => key a == 0) ++ (xs.filter (fun a => key a == 1) ++
           (xs.filter (fun a => key a == 2) ++ xs.filter (fun a => key a == 3)))) =
          x :: (xs.filter (fun a => key a == 0) ++ (xs.filter (fun a => key a == 1) ++
           (xs.filter (fun a => key a == 2) ++ xs.filter (fun a => key a == 3)))) := by
        apply insOrd_front
        intro y hy
        simp only [List.mem_append] at hy
        rcases hy with hy | hy | hy | hy <;> simp [memF _ _ hy, h0]
      rw [hfr]
      simp [List.filter_cons, h0, List.append_assoc]
    · have hal : insOrd (fun a b => decide (key a < key b)) x
          (xs.filter (fun a => key a == 0) ++ (xs.filter (fun a => key a == 1) ++
           (xs.filter (fun a => key a == 2) ++ xs.filter (fun a => key a == 3)))) =
          xs.filter (fun a => key a == 0) ++ insOrd (fun a b => decide (key a < key b)) x
           (xs.filter (fun a => key a == 1) ++
            (xs.filter (fun a => key a == 2) ++ xs.filter (fun a => key a == 3))) := by
        apply insOrd_append_left
        intro y hy
        simp [memF _ _ hy, h1]
      have hfr : insOrd (fun a b => decide (key a < key b)) x
          (xs.filter (fun a => key a == 1) ++
           (xs.filter (fun a => key a == 2) ++ xs.filter (fun a => key a == 3))) =
          x :: (xs.filter (fun a => key a == 1) ++
           (xs.filter (fun a => key a == 2) ++ xs.filter (fun a => key a == 3))) := by
        apply insOrd_front
        intro y hy
        simp only [List.mem_append] at hy
        rcases hy with hy | hy | hy <;> simp [memF _ _ hy, h1]
      rw [hal, hfr]
      simp [List.filter_cons, h1, List.append_assoc]
    · have hal : insOrd (fun a b => decide (key a < key b)) x
          (xs.filter (fun a => key a == 0) ++ (xs.filter (fun a => key a == 1) ++
           (xs.filter (fun a => key a == 2) ++ xs.filter (fun a => key a == 3)))) =
          xs.filter (fun a => key a == 0) ++ (xs.filter (fun a => key a == 1) ++
           insOrd (fun a b => decide (key a < key b)) x
            (xs.filter (fun a => key a == 2) ++ xs.filter (fun a => key a == 3))) := by
        rw [insOrd_append_left]
        · rw [insOrd_append_left]
          intro y hy
          simp [memF _ _ hy, h2]
        · intro y hy
          simp [memF _ _ hy, h2]
      have hfr : insOrd (fun a b => decide (key a < key b)) x
          (xs.filter (fun a => key a == 2) ++ xs.filter (fun a => key a == 3)) =
          x :: (xs.filter (fun a => key a == 2) ++ xs.filter (fun a => key a == 3)) := by
        apply insOrd_front
        intro y hy
        simp only [List.mem_append] at hy
        rcases hy with hy | hy <;> simp [memF _ _ hy, h2]
      rw [hal, hfr]
      simp [List.filter_cons, h2, List.append_assoc]
    · have hal : insOrd (fun a b => decide (key a < key b)) x
          (xs.filter (fun a => key a == 0) ++ (xs.filter (fun a => key a == 1) ++
           (xs.filter (fun a => key a == 2) ++ xs.filter (fun a => key a == 3)))) =
          xs.filter (fun a => key a == 0) ++ (xs.filter (fun a => key a == 1) ++
           (xs.filter (fun a => key a == 2) ++ insOrd (fun a b => decide (key a < key b)) x
            (xs.filter (fun a => key a == 3)))) := by
        rw [insOrd_append_left]
        · rw [insOrd_append_left]
          · rw [insOrd_append_left]
            intro y hy
            simp [memF _ _ hy, h3]
          · intro y hy
            simp [memF _ _ hy, h3]
        · intro y hy
          simp [memF _ _ hy, h3]
      have hfr : insOrd (fun a b => decide (key a < key b)) x
          (xs.filter (fun a => key a == 3)) = x :: xs.filter (fun a => key a == 3) := by
        apply insOrd_front
        intro y hy
        simp [memF _ _ hy, h3]
      rw [hal, hfr]
      simp [List.filter_cons, h3, List.append_assoc]

theorem priorityRank_eq0 (p : String) : (priorityRank p == 0) = (p == "critical") := by
  simp only [priorityRank]
  split_ifs with h1 h2 h3 h4 <;> simp_all

theorem priorityRank_eq1 (p : String) : (priorityRank p == 1) = (p == "high") := by
  simp only [priorityRank]
  split_ifs with h1 h2 h3 h4 <;> simp_all

theorem priorityRank_eq2 (p : String) : (priorityRank p == 2) = (p == "medium") := by
  simp only [priorityRank]
  split_ifs with h1 h2 h3 h4 <;> simp_all

theorem priorityRank_eq3 (p : String) : (priorityRank p == 3) = (p == "low") := by
  simp only [priorityRank]
  split_ifs with h1 h2 h3 h4 <;> simp_all

/-- C1: `readyTickets` (code: `get_actionable_tickets`) returns exactly the
tickets whose status is in {backlog, todo}, whose type is not epic and whose
dependencies all map to tickets with status in {done, in_review, testing},
sorted by the fixed priority order critical < high < medium < low with ties
kept in enumeration order (equivalently: the four priority buckets of the
filtered list, concatenated in order); in particular it never returns a
ticket with an unmet dependency and never returns an epic. -/
theorem readyTickets_spec (ts : List Ticket)
    (h : ∀ t ∈ ts, t.priority = "critical" ∨ t.priority = "high" ∨
      t.priority = "medium" ∨ t.priority = "low") :
    (get_actionable_tickets ts =
      (ts.filter (isActionable ts)).filter (fun t => t.priority == "critical") ++
      (ts.filter (isActionable ts)).filter (fun t => t.priority == "high") ++
      (ts.filter (isActionable ts)).filter (fun t => t.priority == "medium") ++
      (ts.filter (isActionable ts)).filter (fun t => t.priority == "low"))
    ∧ (∀ t ∈ get_actionable_tickets ts, t ∈ ts ∧
        (t.status = "backlog" ∨ t.status = "todo") ∧ t.type ≠ "epic" ∧
        ∀ d ∈ t.dependencies, ∃ u ∈ ts, u.id = d ∧
          (u.status = "done" ∨ u.status = "in_review" ∨ u.status = "testing"))
    ∧ (∀ t, t ∈ get_actionable_tickets ts ↔ t ∈ ts ∧ isActionable ts t = true) := by
  have hmem : ∀ t, t ∈ get_actionable_tickets ts ↔ t ∈ ts ∧ isActionable ts t = true := by
    intro t
    unfold get_actionable_tickets
    rw [mem_pySort]
    exact List.mem_filter
  refine ⟨?_, ?_, hmem⟩
  · have hfil : ∀ a ∈ ts.filter (isActionable ts),
        (fun t : Ticket => priorityRank t.priority) a = 0 ∨
        (fun t : Ticket => priorityRank t.priority) a = 1 ∨
        (fun t : Ticket => priorityRank t.priority) a = 2 ∨
        (fun t : Ticket => priorityRank t.priority) a = 3 := by
      intro a ha
      rcases h a (List.mem_of_mem_filter ha) with h1 | h1 | h1 | h1 <;>
        simp [priorityRank, h1]
    have hb := pySort_buckets (fun t : Ticket => priorityRank t.priority)
      (ts.filter (isActionable ts)) hfil
    have e0 : (fun t : Ticket => priorityRank t.priority == 0) =
        (fun t : Ticket => t.priority == "critical") :=
      funext fun t => priorityRank_eq0 t.priority
    have e1 : (fun t : Ticket => priorityRank t.priority == 1) =
        (fun t : Ticket => t.priority == "high") :=
      funext fun t => priorityRank_eq1 t.priority
    have e2 : (fun t : Ticket => priorityRank t.priority == 2) =
        (fun t : Ticket => t.priority == "medium") :=
      funext fun t => priorityRank_eq2 t.priority
    have e3 : (fun t : Ticket => priorityRank t.priority == 3) =
        (fun t : Ticket => t.priority == "low") :=
      funext fun t => priorityRank_eq3 t.priority
    rw [e0, e1, e2, e3] at hb
    exact hb
  · intro t ht
    obtain ⟨hts, hact⟩ := (hmem t).mp ht
    simp only [isActionable, Bool.and_eq_true, Bool.or_eq_true, Bool.not_eq_true',
      beq_iff_eq, beq_eq_false_iff_ne, List.all_eq_true] at hact
    obtain ⟨⟨hst, hep⟩, hdeps⟩ := hact
    refine ⟨hts, by tauto, hep, ?_⟩
    intro d hd
    have hdm := hdeps d hd
    simp only [depMet, List.any_eq_true, Bool.and_eq_true, Bool.or_eq_true,
      beq_iff_eq] at hdm
    obtain ⟨u, hu, hid, hstat⟩ := hdm
    exact ⟨u, hu, hid, by tauto⟩

/-- Witness for C1: end-to-end scenario 1 — T1 (high, no dependencies) and
T2 (critical, depends on the unfinished T1); only T1 is returned. -/
theorem readyTickets_spec_witness :
    (∀ t ∈ [W1, W2], t.priority = "critical" ∨ t.priority = "high" ∨
      t.priority = "medium" ∨ t.priority = "low") ∧
    get_actionable_tickets [W1, W2] = [W1] := by
  constructor
  · decide
  · have hb := (readyTickets_spec [W1, W2] (by decide)).1
    rw [hb]
    decide

/-- C3: every recorded failure increments the consecutive-failure counter
and records the failure time; once the counter reaches the threshold the
state is open; a recorded success resets the counter to zero and the state
to closed from any state; while open (with a positive recorded failure
time, as `time.time()` always is), a call is permitted exactly when the
elapsed time since the last failure is at least the cooldown, at which
point the state becomes half-open. -/
theorem circuitBreaker_spec (cb : CircuitBreaker) (now t : Int) :
    ((cb.record_failure now).failure_count = cb.failure_count + 1 ∧
     (cb.record_failure now).last_failure_time = some now) ∧
    (cb.failure_threshold ≤ cb.failure_count + 1 →
      (cb.record_failure now).state = "open") ∧
    (cb.record_success.failure_count = 0 ∧ cb.record_success.state = "closed") ∧
    (cb.state = "open" → cb.last_failure_time = some t → 0 < t →
      ((cb.can_execute now).1 = true ↔ cb.cooldown_seconds ≤ now - t) ∧
      (cb.cooldown_seconds ≤ now - t → (cb.can_execute now).2.state = "half_open")) := by
  refine ⟨⟨rfl, rfl⟩, ?_, ⟨rfl, rfl⟩, ?_⟩
  · intro hth
    show (if cb.failure_threshold ≤ cb.failure_count + 1 then "open" else cb.state) = "open"
    rw [if_pos hth]
  · intro hopen hl ht0
    have ht : (t == 0) = false := by
      simp only [beq_eq_false_iff_ne, ne_eq]
      exact ne_of_gt ht0
    by_cases hc : cb.cooldown_seconds ≤ now - t <;>
      simp [CircuitBreaker.can_execute, hopen, hl, ht, hc]

/-- Witness for C3: a breaker with threshold 3 and cooldown 30, open since
time 1 with 3 failures, permits a call at time 31 and becomes half-open. -/
theorem circuitBreaker_spec_witness :
    (3 : Nat) ≤ 2 + 1 ∧
    ((⟨3, 30, "open", 3, some 1⟩ : CircuitBreaker).state = "open") ∧
    (0 : Int) < 1 ∧ (30 : Int) ≤ 31 - 1 ∧
    ((⟨3, 30, "open", 3, some 1⟩ : CircuitBreaker).can_execute 31).1 = true ∧
    ((⟨3, 30, "open", 3, some 1⟩ : CircuitBreaker).can_execute 31).2.state = "half_open" ∧
    ((⟨3, 30, "closed", 2, some 1⟩ : CircuitBreaker).record_failure 5).failure_count = 2 + 1 := by
  have h := circuitBreaker_spec ⟨3, 30, "open", 3, some 1⟩ 31 1
  have hopen := h.2.2.2 rfl rfl (by norm_num)
  have hf := (circuitBreaker_spec ⟨3, 30, "closed", 2, some 1⟩ 5 1).1.1
  exact ⟨by norm_num, rfl, by norm_num, by norm_num,
    hopen.1.mpr (by norm_num), hopen.2 (by norm_num), hf⟩

/-- C7 counterexample: starting from the default breaker, three failures at
time 1 open it; at time 31 a first call is permitted and moves it to
half-open; a second call, with no success or failure recorded in between,
is again permitted — the code does not limit half-open to one trial call. -/
theorem halfOpen_single_trial_cex :
    ((((CircuitBreaker.init 3 30).record_failure 1).record_failure 1).record_failure 1).state = "open" ∧
    (((((CircuitBreaker.init 3 30).record_failure 1).record_failure 1).record_failure 1).can_execute 31).1 = true ∧
    (((((CircuitBreaker.init 3 30).record_failure 1).record_failure 1).record_failure 1).can_execute 31).2.state = "half_open" ∧
    ((((((CircuitBreaker.init 3 30).record_failure 1).record_failure 1).record_failure 1).can_execute 31).2.can_execute 31).1 = true ∧
    ((((((CircuitBreaker.init 3 30).record_failure 1).record_failure 1).record_failure 1).can_execute 31).2.can_execute 31).2.state = "half_open" := by
  decide

/-- C7 amended: while the breaker is half-open, every call is permitted and
the state stays half-open; the breaker leaves half-open only through a
recorded success or failure, so a second trial call before any result is
recorded is also permitted. -/
theorem halfOpen_allows_calls (cb : CircuitBreaker) (now : Int)
    (h : cb.state = "half_open") : cb.can_execute now = (true, cb) := by
  simp [CircuitBreaker.can_execute, h]

/-- Witness for C7's amended theorem at a concrete half-open breaker. -/
theorem halfOpen_allows_calls_witness :
    ((⟨3, 30, "half_open", 3, some 1⟩ : CircuitBreaker).state = "half_open") ∧
    CircuitBreaker.can_execute ⟨3, 30, "half_open", 3, some 1⟩ 5 =
      (true, ⟨3, 30, "half_open", 3, some 1⟩) :=
  ⟨rfl, halfOpen_allows_calls _ 5 rfl⟩

theorem update_members_eq (team : Team) (role status : String)
    (osum : Option String) (now : String) :
    (update_member_status team role status osum now).members =
      updateMembers role status osum now team.members := by
  simp only [update_member_status]
  split_ifs <;> rfl

theorem update_status_eq (team : Team) (role status : String)
    (osum : Option String) (now : String) :
    (update_member_status team role status osum now).status =
      (if ((updateMembers role status osum now team.members).map Member.status).all
            (fun s => s == "completed") then "completed"
       else if ((updateMembers role status osum now team.members).map Member.status).any
            (fun s => s == "blocked") then "blocked"
       else if ((updateMembers role status osum now team.members).map Member.status).any
            (fun s => s == "working") then "active"
       else team.status) := by
  simp only [update_member_status]
  split_ifs <;> rfl

theorem applyMemberUpdate_status (m : Member) (status : String)
    (osum : Option String) (now : String) :
    (applyMemberUpdate m status osum now).status = status := by
  simp only [applyMemberUpdate]
  split_ifs <;> rfl

theorem applyMemberUpdate_started_eq (m : Member) (status : String)
    (osum : Option String) (now : String) :
    (applyMemberUpdate m status osum now).started_at =
      (if status == "working" && (m.started_at == none) then some now
       else m.started_at) := by
  simp only [applyMemberUpdate]
  split_ifs <;> rfl

theorem applyMemberUpdate_completed_eq (m : Member) (status : String)
    (osum : Option String) (now : String) :
    (applyMemberUpdate m status osum now).completed_at =
      (if (status == "completed" || status == "blocked") && (m.completed_at == none) then
        some now
       else m.completed_at) := by
  simp only [applyMemberUpdate]
  split_ifs <;> rfl

theorem updateMembers_statuses (role status : String) (osum : Option String)
    (n1 n2 : String) (l : List Member) :
    (updateMembers role status osum n1 l).map Member.status =
      (updateMembers role status osum n2 l).map Member.status := by
  induction l with
  | nil => rfl
  | cons m ms ih =>
    by_cases h : (m.role == role) = true
    · simp [updateMembers, h, applyMemberUpdate_status]
    · simp [updateMembers, h, ih]

theorem updateMembers_length (role status : String) (osum : Option String)
    (now : String) (l : List Member) :
    (updateMembers role status osum now l).length = l.length := by
  induction l with
  | nil => rfl
  | cons m ms ih =>
    by_cases h : (m.role == role) = true <;> simp [updateMembers, h, ih]

theorem updateMembers_get (role status : String) (osum : Option String)
    (now : String) (l : List Member) (i : Nat) :
    (updateMembers role status osum now l).get? i = l.get? i ∨
    (∃ m, l.get? i = some m ∧ m.role = role ∧
      (updateMembers role status osum now l).get? i =
        some (applyMemberUpdate m status osum now)) := by
  induction l generalizing i with
  | nil => left; rfl
  | cons m ms ih =>
    by_cases h : (m.role == role) = true
    · cases i with
      | zero =>
        right
        exact ⟨m, rfl, by simpa using h, by simp [updateMembers, h]⟩
      | succ j =>
        left
        simp [updateMembers, h]
    · cases i with
      | zero =>
        left
        simp [updateMembers, h]
      | succ j =>
        rcases ih j with h1 | ⟨m', hm', hr', h2⟩
        · left
          simpa [updateMembers, h] using h1
        · right
          exact ⟨m', by simpa using hm', hr', by simpa [updateMembers, h] using h2⟩

theorem mem_findConflicts (reserved : List (String × List String)) (role : String)
    (paths : List String) (p q : String) :
    (p, q) ∈ findConflicts reserved role paths ↔
      p ∈ paths ∧ ∃ e ∈ reserved, e.1 = q ∧ q ≠ role ∧ p ∈ e.2 := by
  induction paths with
  | nil => simp [findConflicts]
  | cons a rest ih =>
    simp only [findConflicts, List.mem_append, ih, List.mem_map, List.mem_filter,
      List.mem_cons, Bool.and_eq_true, Bool.not_eq_true', beq_eq_false_iff_ne,
      List.elem_iff, Prod.mk.injEq]
    constructor
    · rintro (⟨e, ⟨he, hne, hc⟩, hp, hq⟩ | ⟨hp, e, he, h1, h2, h3⟩)
      · subst hp
        exact ⟨Or.inl rfl, e, he, hq, hq ▸ hne, hc⟩
      · exact ⟨Or.inr hp, e, he, h1, h2, h3⟩
    · rintro ⟨hp | hp, e, he, h1, h2, h3⟩
      · subst hp
        exact Or.inl ⟨e, ⟨he, h1.symm ▸ h2, h3⟩, rfl, h1⟩
      · exact Or.inr ⟨hp, e, he, h1, h2, h3⟩

theorem reserve_conflicts_eq (team : Team) (role : String) (paths : List String) :
    (reserve_files team role paths).conflicts =
      findConflicts team.files_reserved role paths := by
  simp only [reserve_files]
  split_ifs <;> rfl

/-- C4: `reserve` is atomic and fully reported — the call fails exactly
when some requested path appears in another role's reservation set; on
failure the team (and so its reservation map) is completely unchanged; the
reported conflict list contains exactly the (path, other role) pairs, and
never pairs a path with the requesting role itself. -/
theorem reserve_files_atomic (team : Team) (role : String) (paths : List String) :
    ((reserve_files team role paths).ok = false ↔
      ∃ p ∈ paths, ∃ e ∈ team.files_reserved, e.1 ≠ role ∧ p ∈ e.2) ∧
    ((reserve_files team role paths).ok = false →
      (reserve_files team role paths).team = team) ∧
    (∀ p q, (p, q) ∈ (reserve_files team role paths).conflicts ↔
      p ∈ paths ∧ ∃ e ∈ team.files_reserved, e.1 = q ∧ q ≠ role ∧ p ∈ e.2) ∧
    (∀ p, (p, role) ∉ (reserve_files team role paths).conflicts) := by
  have hconf := reserve_conflicts_eq team role paths
  have hmem : ∀ p q, (p, q) ∈ (reserve_files team role paths).conflicts ↔
      p ∈ paths ∧ ∃ e ∈ team.files_reserved, e.1 = q ∧ q ≠ role ∧ p ∈ e.2 := by
    intro p q
    rw [hconf]
    exact mem_findConflicts team.files_reserved role paths p q
  refine ⟨?_, ?_, hmem, ?_⟩
  · constructor
    · intro hok
      have hne : ¬ (findConflicts team.files_reserved role paths).isEmpty = true := by
        intro he
        simp only [reserve_files, he, if_true] at hok
        exact Bool.true_eq_false ▸ hok
      rw [List.isEmpty_iff] at hne
      obtain ⟨⟨p, q⟩, hpq⟩ := List.exists_mem_of_ne_nil _ hne
      obtain ⟨hp, e, he, h1, h2, h3⟩ :=
        (mem_findConflicts team.files_reserved role paths p q).mp hpq
      exact ⟨p, hp, e, he, fun hr => h2 (h1.symm.trans hr), h3⟩
    · rintro ⟨p, hp, e, he, hne, hpe⟩
      have hpq : (p, e.1) ∈ findConflicts team.files_reserved role paths :=
        (mem_findConflicts team.files_reserved role paths p e.1).mpr
          ⟨hp, e, he, rfl, hne, hpe⟩
      have hne2 : ¬ (findConflicts team.files_reserved role paths).isEmpty = true := by
        rw [List.isEmpty_iff]
        intro hnil
        rw [hnil] at hpq
        exact List.not_mem_nil _ hpq
      simp [reserve_files, hne2]
  · intro hok
    have hne : ¬ (findConflicts team.files_reserved role paths).isEmpty = true := by
      intro he
      simp only [reserve_files, he, if_true] at hok
      exact Bool.true_eq_false ▸ hok
    simp [reserve_files, hne]
  · intro p hmemrole
    have := (hmem p role).mp hmemrole
    obtain ⟨_, e, _, _, hne, _⟩ := this
    exact hne rfl

/-- Witness for C4: end-to-end scenario 5 — `/a.go` is reserved by R1;
reserving it for R2 fails, reports the conflict `(/a.go, R1)`, and leaves
the team (and R2's reservation set, which stays absent) unchanged. -/
theorem reserve_files_atomic_witness :
    (reserve_files TeamR "R2" ["/a.go"]).ok = false ∧
    (reserve_files TeamR "R2" ["/a.go"]).team = TeamR ∧
    (reserve_files TeamR "R2" ["/a.go"]).conflicts = [("/a.go", "R1")] := by
  have h := reserve_files_atomic TeamR "R2" ["/a.go"]
  have hok : (reserve_files TeamR "R2" ["/a.go"]).ok = false :=
    h.1.mpr ⟨"/a.go", by decide, ("R1", ["/a.go"]), by decide, by decide, by decide⟩
  exact ⟨hok, h.2.1 hok, by decide⟩

/-- C5 counterexample: with previous team status `completed` and members
[completed, pending], updating member a to `completed` leaves the team
status `completed` even though not all members are completed — the
"completed if and only if all members completed" direction fails in the
fall-through branch. -/
theorem team_status_completed_iff_cex :
    (update_member_status TeamC5 "a" "completed" none "n").status = "completed" ∧
    (((update_member_status TeamC5 "a" "completed" none "n").members.map
        Member.status).all (fun s => s == "completed")) = false := by
  decide

/-- C5 amended: after every member-status update the team status is
recomputed as: `completed` if all members are completed; else `blocked` if
any member is blocked; else `active` if any member is working; otherwise
the previous team status is retained (so `completed` can persist from the
previous status even when not all members are completed). -/
theorem team_status_aggregation (team : Team) (role status : String)
    (osum : Option String) (now : String) :
    ((update_member_status team role status osum now).members =
      updateMembers role status osum now team.members) ∧
    (((updateMembers role status osum now team.members).map Member.status).all
        (fun s => s == "completed") = true →
      (update_member_status team role status osum now).status = "completed") ∧
    (((updateMembers role status osum now team.members).map Member.status).all
        (fun s => s == "completed") = false →
     ((updateMembers role status osum now team.members).map Member.status).any
        (fun s => s == "blocked") = true →
      (update_member_status team role status osum now).status = "blocked") ∧
    (((updateMembers role status osum now team.members).map Member.status).all
        (fun s => s == "completed") = false →
     ((updateMembers role status osum now team.members).map Member.status).any
        (fun s => s == "blocked") = false →
     ((updateMembers role status osum now team.members).map Member.status).any
        (fun s => s == "working") = true →
      (update_member_status team role status osum now).status = "active") ∧
    (((updateMembers role status osum now team.members).map Member.status).all
        (fun s => s == "completed") = false →
     ((updateMembers role status osum now team.members).map Member.status).any
        (fun s => s == "blocked") = false →
     ((updateMembers role status osum now team.members).map Member.status).any
        (fun s => s == "working") = false →
      (update_member_status team role status osum now).status = team.status) := by
  refine ⟨update_members_eq team role status osum now, ?_, ?_, ?_, ?_⟩
  · intro h1
    rw [update_status_eq, if_pos h1]
  · intro h1 h2
    rw [update_status_eq, if_neg (by simp [h1]), if_pos h2]
  · intro h1 h2 h3
    rw [update_status_eq, if_neg (by simp [h1]), if_neg (by simp [h2]), if_pos h3]
  · intro h1 h2 h3
    rw [update_status_eq, if_neg (by simp [h1]), if_neg (by simp [h2]),
      if_neg (by simp [h3])]

/-- Witness for C5's amended theorem: updating member a to `blocked` in a
[completed, pending] team makes the team `blocked`. -/
theorem team_status_aggregation_witness :
    (((updateMembers "a" "blocked" none "n" TeamC6a.members).map Member.status).all
        (fun s => s == "completed") = false) ∧
    (((updateMembers "a" "blocked" none "n" TeamC6a.members).map Member.status).any
        (fun s => s == "blocked") = true) ∧
    (update_member_status TeamC6a "a" "blocked" none "n").status = "blocked" := by
  refine ⟨by decide, by decide, ?_⟩
  exact (team_status_aggregation TeamC6a "a" "blocked" none "n").2.2.1
    (by decide) (by decide)

/-- C6 counterexample: two teams with identical member lists but different
prior statuses yield different recomputed team statuses after the same
member update — team status is not a pure function of the member statuses
alone. -/
theorem team_status_pure_cex :
    TeamC6a.members = TeamC6b.members ∧
    (update_member_status TeamC6a "a" "completed" none "n").status = "forming" ∧
    (update_member_status TeamC6b "a" "completed" none "n").status = "init" ∧
    (update_member_status TeamC6a "a" "completed" none "n").status ≠
      (update_member_status TeamC6b "a" "completed" none "n").status := by
  decide

/-- C6 amended: the recomputed team status is a pure function of the member
statuses whenever they determine a branch (all completed, some blocked, or
some working); only in the fall-through case does it depend on the prior
team status. -/
theorem team_status_pure (ta tb : Team) (role status : String) (osum : Option String)
    (na nb : String) (hm : ta.members = tb.members)
    (hdet :
      ((updateMembers role status osum na ta.members).map Member.status).all
        (fun s => s == "completed") = true ∨
      ((updateMembers role status osum na ta.members).map Member.status).any
        (fun s => s == "blocked") = true ∨
      ((updateMembers role status osum na ta.members).map Member.status).any
        (fun s => s == "working") = true) :
    (update_member_status ta role status osum na).status =
      (update_member_status tb role status osum nb).status := by
  have hs : (updateMembers role status osum na ta.members).map Member.status =
      (updateMembers role status osum nb tb.members).map Member.status := by
    rw [← hm]
    exact updateMembers_statuses role status osum na nb ta.members
  rw [update_status_eq, update_status_eq, ← hs]
  rcases hdet with h | h | h
  · rw [if_pos h, if_pos h]
  · by_cases hall : ((updateMembers role status osum na ta.members).map Member.status).all
        (fun s => s == "completed") = true
    · rw [if_pos hall, if_pos hall]
    · rw [if_neg hall, if_neg hall, if_pos h, if_pos h]
  · by_cases hall : ((updateMembers role status osum na ta.members).map Member.status).all
        (fun s => s == "completed") = true
    · rw [if_pos hall, if_pos hall]
    · by_cases hbl : ((updateMembers role status osum na ta.members).map Member.status).any
          (fun s => s == "blocked") = true
      · rw [if_neg hall, if_neg hall, if_pos hbl, if_pos hbl]
      · rw [if_neg hall, if_neg hall, if_neg hbl, if_neg hbl, if_pos h, if_pos h]

/-- Witness for C6's amended theorem: the same member update on two teams
with equal members (and different prior statuses and timestamps) yields the
same team status when a member is working. -/
theorem team_status_pure_witness :
    TeamC6a.members = TeamC6b.members ∧
    (((updateMembers "a" "working" none "n" TeamC6a.members).map Member.status).any
        (fun s => s == "working") = true) ∧
    (update_member_status TeamC6a "a" "working" none "n").status =
      (update_member_status TeamC6b "a" "working" none "m").status :=
  ⟨rfl, by decide,
    team_status_pure TeamC6a TeamC6b "a" "working" none "n" "m" rfl
      (Or.inr (Or.inr (by decide)))⟩

/-- C9: member timestamps are write-once — `update_member_status` assigns
`started_at` only when the member enters `working` with a null
`started_at`, and `completed_at` only on entering `completed`/`blocked`
with a null `completed_at`; set timestamps are never overwritten, and
members whose role is not the named one are left unchanged. -/
theorem member_timestamps_write_once (team : Team) (role status : String)
    (osum : Option String) (now : String) :
    (update_member_status team role status osum now).members.length =
      team.members.length ∧
    ∀ (i : Nat) (m m' : Member),
      team.members.get? i = some m →
      (update_member_status team role status osum now).members.get? i = some m' →
      (m.role ≠ role → m' = m) ∧
      (∀ v, m.started_at = some v → m'.started_at = some v) ∧
      (∀ v, m.completed_at = some v → m'.completed_at = some v) ∧
      (m'.started_at ≠ m.started_at →
        status = "working" ∧ m.started_at = none ∧ m'.started_at = some now) ∧
      (m'.completed_at ≠ m.completed_at →
        (status = "completed" ∨ status = "blocked") ∧ m.completed_at = none ∧
          m'.completed_at = some now) := by
  rw [update_members_eq]
  refine ⟨updateMembers_length role status osum now team.members, ?_⟩
  intro i m m' hm hm'
  rcases updateMembers_get role status osum now team.members i with he | ⟨m0, hm0, hrole, hup⟩
  · rw [he, hm] at hm'
    have : m' = m := (Option.some.inj hm').symm
    subst this
    refine ⟨fun _ => rfl, fun v hv => hv, fun v hv => hv, fun hne => absurd rfl hne,
      fun hne => absurd rfl hne⟩
  · rw [hm0] at hm
    have hmm : m0 = m := Option.some.inj hm
    subst hmm
    rw [hup] at hm'
    have hmm' : m' = applyMemberUpdate m0 status osum now :=
      (Option.some.inj hm').symm
    subst hmm'
    refine ⟨fun hne => absurd hrole hne, ?_, ?_, ?_, ?_⟩
    · intro v hv
      rw [applyMemberUpdate_started_eq]
      simp [hv]
    · intro v hv
      rw [applyMemberUpdate_completed_eq]
      simp [hv]
    · rw [applyMemberUpdate_started_eq]
      by_cases hc : (status == "working" && (m0.started_at == none)) = true
      · rw [if_pos hc]
        intro _
        simp only [Bool.and_eq_true, beq_iff_eq] at hc
        exact ⟨hc.1, by simpa using hc.2, rfl⟩
      · rw [if_neg hc]
        intro hne
        exact absurd rfl hne
    · rw [applyMemberUpdate_completed_eq]
      by_cases hc : ((status == "completed" || status == "blocked") &&
          (m0.completed_at == none)) = true
      · rw [if_pos hc]
        intro _
        simp only [Bool.and_eq_true, Bool.or_eq_true, beq_iff_eq] at hc
        exact ⟨hc.1, by simpa using hc.2, rfl⟩
      · rw [if_neg hc]
        intro hne
        exact absurd rfl hne

/-- Witness for C9 at a concrete team: updating member a leaves member b
(different role) with its recorded `started_at` intact. -/
theorem member_timestamps_write_once_witness :
    Team9.members.get? 1 = some m9b ∧
    (update_member_status Team9 "a" "working" none "n").members.get? 1 = some m9b ∧
    m9b.started_at = some "t0" := by
  refine ⟨rfl, rfl, ?_⟩
  exact ((member_timestamps_write_once Team9 "a" "working" none "n").2 1 m9b m9b
    rfl rfl).2.1 "t0" rfl

theorem runSequential_cons_elig (ts : Nat) (exec : String → ExecOutcome)
    (m : Member) (ms : List Member) (h : eligMember m = true) :
    runSequential ts exec (m :: ms) =
      (m.role, delegate_team_member ts (exec m.role)) ::
        (if (delegate_team_member ts (exec m.role)).1 == "completed"
         then runSequential ts exec ms else []) := by
  simp [runSequential, h]

theorem runSequential_cons_skip (ts : Nat) (exec : String → ExecOutcome)
    (m : Member) (ms : List Member) (h : eligMember m = false) :
    runSequential ts exec (m :: ms) = runSequential ts exec ms := by
  simp [runSequential, h]

theorem runSequential_filter (ts : Nat) (exec : String → ExecOutcome) (l : List Member) :
    runSequential ts exec l = runSequential ts exec (l.filter eligMember) := by
  induction l with
  | nil => rfl
  | cons m ms ih =>
    cases h : eligMember m with
    | true =>
      rw [runSequential_cons_elig ts exec m ms h, List.filter_cons_of_pos h,
        runSequential_cons_elig ts exec m (ms.filter eligMember) h, ih]
    | false =>
      rw [runSequential_cons_skip ts exec m ms h, List.filter_cons_of_neg (by simp [h]), ih]

theorem runSequential_roles (ts : Nat) (exec : String → ExecOutcome) (l : List Member)
    (h : ∀ m ∈ l, eligMember m = true) :
    (runSequential ts exec l).map Prod.fst =
      (l.map Member.role).take (runSequential ts exec l).length := by
  induction l with
  | nil => rfl
  | cons m ms ih =>
    have hm : eligMember m = true := h m (List.mem_cons_self _ _)
    have hms : ∀ x ∈ ms, eligMember x = true :=
      fun x hx => h x (List.mem_cons_of_mem _ hx)
    rw [runSequential_cons_elig ts exec m ms hm]
    cases hr : ((delegate_team_member ts (exec m.role)).1 == "completed") with
    | true =>
      simp only [hr, if_true, List.map_cons, List.length_cons, List.take_succ_cons]
      rw [ih hms]
    | false =>
      simp [hr]

theorem runSequential_values (ts : Nat) (exec : String → ExecOutcome) (l : List Member) :
    ∀ r ∈ runSequential ts exec l, r.2 = delegate_team_member ts (exec r.1) := by
  induction l with
  | nil => intro r hr; simp [runSequential] at hr
  | cons m ms ih =>
    intro r hr
    cases h : eligMember m with
    | true =>
      rw [runSequential_cons_elig ts exec m ms h] at hr
      rcases List.mem_cons.mp hr with hr | hr
      · subst hr; rfl
      · cases hc : ((delegate_team_member ts (exec m.role)).1 == "completed") with
        | true =>
          rw [hc] at hr
          simp only [if_true] at hr
          exact ih r hr
        | false =>
          rw [hc] at hr
          simp at hr
    | false =>
      rw [runSequential_cons_skip ts exec m ms h] at hr
      exact ih r hr

theorem runSequential_stop (ts : Nat) (exec : String → ExecOutcome) (l : List Member) :
    ∀ (j : Nat) (r1 r2 : String × String × String),
      (runSequential ts exec l).get? j = some r1 →
      (runSequential ts exec l).get? (j + 1) = some r2 → r1.2.1 = "completed" := by
  induction l with
  | nil => intro j r1 r2 h1 _; simp [runSequential] at h1
  | cons m ms ih =>
    intro j r1 r2 h1 h2
    cases h : eligMember m with
    | true =>
      rw [runSequential_cons_elig ts exec m ms h] at h1 h2
      cases hc : ((delegate_team_member ts (exec m.role)).1 == "completed") with
      | true =>
        rw [hc] at h1 h2
        simp only [if_true] at h1 h2
        cases j with
        | zero =>
          have : r1 = (m.role, delegate_team_member ts (exec m.role)) :=
            Option.some.inj h1.symm
          subst this
          simpa using hc
        | succ k =>
          exact ih k r1 r2 (by simpa using h1) (by simpa using h2)
      | false =>
        rw [hc] at h2
        simp only [Bool.false_eq_true, if_false] at h2
        cases j with
        | zero => simp at h2
        | succ k => simp at h2
    | false =>
      rw [runSequential_cons_skip ts exec m ms h] at h1 h2
      exact ih j r1 r2 h1 h2

theorem runSequential_early_stop (ts : Nat) (exec : String → ExecOutcome)
    (l : List Member) (h : ∀ m ∈ l, eligMember m = true) :
    (runSequential ts exec l).length < l.length →
      ∃ r, (runSequential ts exec l).getLast? = some r ∧ r.2.1 ≠ "completed" := by
  induction l with
  | nil => intro hlen; simp [runSequential] at hlen
  | cons m ms ih =>
    have hm : eligMember m = true := h m (List.mem_cons_self _ _)
    have hms : ∀ x ∈ ms, eligMember x = true :=
      fun x hx => h x (List.mem_cons_of_mem _ hx)
    intro hlen
    rw [runSequential_cons_elig ts exec m ms hm] at hlen ⊢
    cases hc : ((delegate_team_member ts (exec m.role)).1 == "completed") with
    | true =>
      rw [hc] at hlen
      simp only [if_true] at hlen ⊢
      have hlt : (runSequential ts exec ms).length < ms.length := by
        simpa using hlen
      obtain ⟨r, hlast, hne⟩ := ih hms hlt
      refine ⟨r, ?_, hne⟩
      cases htail : runSequential ts exec ms with
      | nil => rw [htail] at hlast; simp at hlast
      | cons t tl =>
        rw [htail] at hlast
        rw [List.getLast?_cons_cons]
        exact hlast
    | false =>
      rw [hc] at hlen
      simp only [Bool.false_eq_true, if_false] at hlen ⊢
      exact ⟨(m.role, delegate_team_member ts (exec m.role)), rfl, by simpa using hc⟩

theorem pySort_lead_first (lead : String) (l : List Member) :
    pySort (memberKeyLt lead) l =
      l.filter (fun m => m.role == lead) ++
      pySort (memberKeyLt lead) (l.filter (fun m => !(m.role == lead))) := by
  induction l with
  | nil => rfl
  | cons m ms ih =>
    cases hm : (m.role == lead) with
    | true =>
      have hfront : ∀ y ∈ ms.filter (fun x => x.role == lead) ++
          pySort (memberKeyLt lead) (ms.filter (fun x => !(x.role == lead))),
          memberKeyLt lead y m = false := by
        intro y hy
        rcases List.mem_append.mp hy with hy | hy
        · have h1 : (y.role == lead) = true := (List.mem_filter.mp hy).2
          have hyr : y.role = lead := by simpa using h1
          have hmr : m.role = lead := by simpa using hm
          simp [memberKeyLt, h1, hm, hyr, hmr, String.lt_irrefl]
        · have hy2 := (mem_pySort _ _ _).mp hy
          have h1 : (!(y.role == lead)) = true := (List.mem_filter.mp hy2).2
          have h1' : (y.role == lead) = false := by simpa using h1
          simp [memberKeyLt, h1', hm]
      simp only [pySort, ih]
      rw [insOrd_front _ _ _ hfront]
      simp [List.filter_cons, hm]
    | false =>
      have hL : ∀ y ∈ ms.filter (fun x => x.role == lead),
          memberKeyLt lead y m = true := by
        intro y hy
        have h1 : (y.role == lead) = true := (List.mem_filter.mp hy).2
        simp [memberKeyLt, h1, hm]
      simp only [pySort, ih]
      rw [insOrd_append_left _ _ _ _ hL]
      simp [List.filter_cons, hm, pySort]

/-- C2 counterexample: a sequential 2-member team whose first member's
subprocess succeeds while its report parses to status "blocked" — the
delegate result is nevertheless "completed", so the second member IS
invoked, contradicting the claim (and end-to-end scenario 4). -/
theorem run_sequential_blocked_cex :
    (parse_agent_output "### Summary\n**Status**: blocked\n").status = "blocked" ∧
    (delegate_team_member 600 (cexExec "dev")).1 = "completed" ∧
    run_team_sprint_sequential 600 cexExec [mdev, mqa] "dev" =
      [("dev", "completed", String.mk (takeLast 500
          "### Summary\n**Status**: blocked\n".toList)),
       ("qa", "completed", "ok")] := by
  decide

/-- C2 amended: in sequential mode the members are invoked one at a time —
the invoked roles are an initial segment of the eligible members in sorted
order with the lead first; every recorded result is the delegate result of
that member's subprocess; any result followed by another has status
"completed" (so execution stops at the first non-"completed" result); an
eligible member is left uninvoked only when the last result was not
"completed"; and a finished subprocess always yields result status
"completed" regardless of the agent report it relayed, so a report parsing
to "blocked" does NOT stop the sequence — only a timeout or an exception
does. -/
theorem run_sequential_spec (ts : Nat) (exec : String → ExecOutcome)
    (members : List Member) (lead : String) :
    ((run_team_sprint_sequential ts exec members lead).map Prod.fst =
      (((pySort (memberKeyLt lead) members).filter eligMember).map Member.role).take
        (run_team_sprint_sequential ts exec members lead).length) ∧
    (∀ r ∈ run_team_sprint_sequential ts exec members lead,
      r.2 = delegate_team_member ts (exec r.1)) ∧
    (∀ (j : Nat) (r1 r2 : String × String × String),
      (run_team_sprint_sequential ts exec members lead).get? j = some r1 →
      (run_team_sprint_sequential ts exec members lead).get? (j + 1) = some r2 →
      r1.2.1 = "completed") ∧
    ((run_team_sprint_sequential ts exec members lead).length <
        ((pySort (memberKeyLt lead) members).filter eligMember).length →
      ∃ r, (run_team_sprint_sequential ts exec members lead).getLast? = some r ∧
        r.2.1 ≠ "completed") ∧
    ((∃ m ∈ members, m.role = lead ∧ eligMember m = true) →
      ∃ rest, (run_team_sprint_sequential ts exec members lead).map Prod.fst =
        lead :: rest) ∧
    (∀ out, (delegate_team_member ts (ExecOutcome.success out)).1 = "completed") := by
  have hrw0 : run_team_sprint_sequential ts exec members lead =
      runSequential ts exec ((pySort (memberKeyLt lead) members).filter eligMember) :=
    runSequential_filter ts exec (pySort (memberKeyLt lead) members)
  have helig : ∀ m ∈ (pySort (memberKeyLt lead) members).filter eligMember,
      eligMember m = true := fun m hm => (List.mem_filter.mp hm).2
  refine ⟨?_, ?_, ?_, ?_, ?_, fun out => rfl⟩
  · rw [hrw0]
    exact runSequential_roles ts exec _ helig
  · rw [hrw0]
    exact runSequential_values ts exec _
  · rw [hrw0]
    exact runSequential_stop ts exec _
  · rw [hrw0]
    exact runSequential_early_stop ts exec _ helig
  · rintro ⟨ml, hml, hrole, hel⟩
    rw [hrw0]
    have hmem0 : ml ∈ (members.filter (fun m => m.role == lead)).filter eligMember :=
      List.mem_filter.mpr ⟨List.mem_filter.mpr ⟨hml, by simp [hrole]⟩, hel⟩
    cases hLm : (members.filter (fun m => m.role == lead)).filter eligMember with
    | nil =>
      rw [hLm] at hmem0
      exact absurd hmem0 (List.not_mem_nil ml)
    | cons l0 rest0 =>
      have hl0lead : l0.role = lead := by
        have : l0 ∈ (members.filter (fun m => m.role == lead)).filter eligMember := by
          rw [hLm]; exact List.mem_cons_self _ _
        have := List.mem_filter.mp (List.mem_filter.mp this).1 |>.2
        simpa using this
      have hl0elig : eligMember l0 = true := by
        have : l0 ∈ (members.filter (fun m => m.role == lead)).filter eligMember := by
          rw [hLm]; exact List.mem_cons_self _ _
        exact (List.mem_filter.mp this).2
      have hsplit : (pySort (memberKeyLt lead) members).filter eligMember =
          l0 :: (rest0 ++
            (pySort (memberKeyLt lead)
              (members.filter (fun m => !(m.role == lead)))).filter eligMember) := by
        rw [pySort_lead_first, List.filter_append, hLm]
        rfl
      rw [hsplit, runSequential_cons_elig ts exec l0 _ hl0elig]
      cases hc : ((delegate_team_member ts (exec l0.role)).1 == "completed") with
      | true =>
        simp only [if_true, List.map_cons]
        exact ⟨_, by rw [hl0lead]⟩
      | false =>
        simp only [Bool.false_eq_true, if_false, List.map_cons, List.map_nil]
        exact ⟨[], by rw [hl0lead]⟩

/-- Witness for C2's amended theorem: a 2-member sequential team where the
dev subprocess times out — only dev is invoked, its recorded result is not
"completed", and the lead is invoked first. -/
theorem run_sequential_spec_witness :
    run_team_sprint_sequential 600 timeoutExec [mdev, mqa] "dev" =
      [("dev", "timeout", "Timed out after 600s")] ∧
    (∃ m ∈ [mdev, mqa], m.role = "dev" ∧ eligMember m = true) ∧
    (∃ rest, (run_team_sprint_sequential 600 timeoutExec [mdev, mqa] "dev").map
        Prod.fst = "dev" :: rest) ∧
    (∃ r, (run_team_sprint_sequential 600 timeoutExec [mdev, mqa] "dev").getLast? =
        some r ∧ r.2.1 ≠ "completed") := by
  refine ⟨by decide, by decide, ?_, ?_⟩
  · exact (run_sequential_spec 600 timeoutExec [mdev, mqa] "dev").2.2.2.2.1
      ⟨mdev, by decide, by decide, by decide⟩
  · exact (run_sequential_spec 600 timeoutExec [mdev, mqa] "dev").2.2.2.1 (by decide)

/-- C8 counterexample: for output with no tagged section the description
is the *stripped* tail, not the raw trailing characters: on "hi\n" the
parser yields "hi" while the trailing 500 characters are "hi\n". -/
theorem parse_agent_output_strip_cex :
    findTagged "samenvatting".toList "hi\n".toList = none ∧
    findTagged "summary".toList "hi\n".toList = none ∧
    (parse_agent_output "hi\n").description = "hi" ∧
    String.mk (takeLast 500 "hi\n".toList) = "hi\n" ∧
    ("hi" : String) ≠ "hi\n" := by
  decide

/-- C8 amended: for agent output with no tagged summary section (neither
the Dutch tag nor the English fallback), the parser returns status
"completed", an empty file list, and the trailing 500 characters of the
raw output with surrounding whitespace stripped as the description; when
the Dutch tag is absent but the English tag present, the English section
is parsed. -/
theorem parse_agent_output_fallback (output : String)
    (h1 : findTagged "samenvatting".toList output.toList = none) :
    (findTagged "summary".toList output.toList = none →
      parse_agent_output output =
        ⟨"completed", [], String.mk (pyStrip (takeLast 500 output.toList)), ""⟩) ∧
    (∀ body, findTagged "summary".toList output.toList = some body →
      parse_agent_output output = parseSummaryBody body) := by
  constructor
  · intro h2
    simp only [parse_agent_output, h1, h2]
  · intro body h2
    simp only [parse_agent_output, h1, h2]

/-- Witness for C8: an output with only the English summary tag parses the
English section, and a tagless output falls back to the stripped tail. -/
theorem parse_agent_output_fallback_witness :
    findTagged "samenvatting".toList "### Summary\n**Status**: blocked\n".toList = none ∧
    parse_agent_output "### Summary\n**Status**: blocked\n" =
      parseSummaryBody "**Status**: blocked\n".toList ∧
    (parse_agent_output "### Summary\n**Status**: blocked\n").status = "blocked" ∧
    findTagged "samenvatting".toList "plain text".toList = none ∧
    parse_agent_output "plain text" =
      ⟨"completed", [], String.mk (pyStrip (takeLast 500 "plain text".toList)), ""⟩ := by
  refine ⟨by decide, ?_, by decide, by decide, ?_⟩
  · exact (parse_agent_output_fallback "### Summary\n**Status**: blocked\n"
      (by decide)).2 _ (by decide)
  · exact (parse_agent_output_fallback "plain text" (by decide)).1 (by decide)

/-- C10: after a successful executor invocation, `cmd_delegate` moves the
ticket to blocked exactly when the parsed status is "blocked"; for every
other parsed status token ("completed", "needs_review", "too_complex" or
anything unrecognized) the ticket goes to in_review; agent_output and
files_touched are set from the parsed report. -/
theorem delegate_ticket_update (ticket : Ticket) (parsed : Parsed) (now : String) :
    ((cmd_delegate_update_ticket ticket parsed now).status = "blocked" ↔
      parsed.status = "blocked") ∧
    (parsed.status ≠ "blocked" →
      (cmd_delegate_update_ticket ticket parsed now).status = "in_review") ∧
    (cmd_delegate_update_ticket ticket parsed now).agent_output =
      strTake 2000 parsed.description ∧
    (cmd_delegate_update_ticket ticket parsed now).files_touched =
      parsed.files_changed := by
  refine ⟨?_, ?_, rfl, rfl⟩
  · simp only [cmd_delegate_update_ticket]
    split_ifs with hA hB hC <;> simp_all
  · intro hne
    simp only [cmd_delegate_update_ticket]
    split_ifs with hA hB hC <;> simp_all

/-- Witness for C10 at a concrete ticket and parsed report with the
unrecognized status "too_complex": the ticket moves to in_review and takes
the parsed file list. -/
theorem delegate_ticket_update_witness :
    ("too_complex" : String) ≠ "blocked" ∧
    (cmd_delegate_update_ticket W1 ⟨"too_complex", ["a.go"], "d", "q"⟩ "n").status =
      "in_review" ∧
    (cmd_delegate_update_ticket W1 ⟨"too_complex", ["a.go"], "d", "q"⟩ "n").files_touched =
      ["a.go"] := by
  refine ⟨by decide, ?_, ?_⟩
  · exact (delegate_ticket_update W1 ⟨"too_complex", ["a.go"], "d", "q"⟩ "n").2.1
      (by decide)
  · exact (delegate_ticket_update W1 ⟨"too_complex", ["a.go"], "d", "q"⟩ "n").2.2.2

end CtoOrch
